import Mathlib

/-!
Verification development for the ts-promise library (poelstra/ts-promise).

The TypeScript sources under `src/lib/` are shallowly embedded as executable
Lean definitions, component by component:

* `Trace` (src/lib/Trace.ts): stack-trace chaining; a captured `Stack` is an
  external collaborator and is modelled as its inspectable string snapshot.
* `CallQueue` (src/lib/async.ts): the flat slot array with read-then-clear
  cursor, modelled at the granularity of (callback, argument) pairs.
* `Async` (src/lib/async.ts): the two-ring (main/idle) flush scheduler,
  modelled generically over the task type and its execution function.
* `Promise` (src/lib/Promise.ts): the promise heap, the state machine with
  flags, handler queues, the resolution algorithm, `then`/`done`, the
  `unwrappingPromise` fence, and the static combinators `all`/`race`.

Machine-level details that are not observable through the verified
properties (clearing consumed queue slots to `undefined` for GC, the
`_scheduled` host-scheduler flag, long-trace stack mangling) are noted at
their definition sites.
-/

namespace TsPromise

/-! ## Trace (src/lib/Trace.ts)

A `Stack` ("capture current call-site") is an external collaborator; it is
modelled by its platform-formatted snapshot string, with `Stack.inspect()`
returning exactly that string. -/

/-- Model of `Trace`: one stack for "here" plus the optional `sources`
array of ancestor stacks. `sources` is absent (`undefined`) until
`setSource` is called, hence the `Option`. -/
structure TraceM where
  stack : String
  sources : Option (List String) := none
deriving Repr, DecidableEq

/-- `Trace.traceLimit`, the default bound on the ancestor list (10). -/
def traceLimit : Nat := 10

/-- `Trace.setSource(source)`: copy the source's stacks into this trace.
If the source has no `sources`, the new list is `[source.stack]`; otherwise
it is `source.sources.concat(source.stack)`, truncated with
`slice(0, Trace.traceLimit)` when it exceeds the limit. -/
def TraceM.setSource (t source : TraceM) : TraceM :=
  match source.sources with
  | none => { t with sources := some [source.stack] }
  | some ss =>
      let c := ss ++ [source.stack]
      if c.length > traceLimit then
        { t with sources := some (c.take traceLimit) }
      else
        { t with sources := some c }

/-- `Trace.inspect()`: the "here" stack, then for `i` from
`sources.length - 1` down to `0` a `"\n  from previous:\n"` separator and
`sources[i]`. Iterating indices downward is iterating the reversed list. -/
def TraceM.inspect (t : TraceM) : String :=
  t.stack ++
    match t.sources with
    | none => ""
    | some ss => String.join (ss.reverse.map (fun a => "\n  from previous:\n" ++ a))

/-- The stacks of a trace flattened as the claim describes them: the
trace's ancestors followed by the trace's own stack. This is the list
`source.sources.concat(source.stack)` before truncation. -/
def TraceM.flattened (t : TraceM) : List String :=
  match t.sources with
  | none => [t.stack]
  | some ss => ss ++ [t.stack]

/-! ## CallQueue (src/lib/async.ts)

The source stores callbacks and arguments in interleaved numeric slots of
a flat array (`this[length++] = callback; this[length++] = arg`), with a
read cursor `_first` and `_max = 1000` slots. Here one list entry models
one slot *pair*, so slot indices are twice the pair indices: `length`
corresponds to `2 * entries.length` and `_first` to `2 * first`. Clearing
consumed slots to `undefined` (GC relief, slots below the cursor are never
read again) is not modelled. Callbacks are opaque values of type `κ`; the
behaviour of invoking a callback on its argument is supplied externally as
`run : κ → α → Except ε Unit`, an exception modelling a JS `throw`. A
callback that pushes onto a queue mid-flush is handled at the `Async` ring
level below, where enqueueing effects live. -/

/-- Model of a `CallQueue`: pushed (callback, argument) pairs plus the
read cursor (`_first`, in pair units) and capacity (`_max`, in slots). -/
structure CallQueue (κ α : Type) where
  entries : List (κ × α)
  first : Nat
  max : Nat

/-- A fresh `CallQueue` (length 0, cursor 0, `_max = 1000` slots). -/
def CallQueue.new (κ α : Type) : CallQueue κ α := ⟨[], 0, 1000⟩

/-- `CallQueue.push(callback, arg)`: append both slots, report whether the
queue still has space (`this.length < this._max` after the two writes). -/
def CallQueue.push (q : CallQueue κ α) (cb : κ) (arg : α) : CallQueue κ α × Bool :=
  ({ q with entries := q.entries ++ [(cb, arg)] },
   2 * (q.entries.length + 1) < q.max)

/-- `CallQueue.flush()`: `while (_first < length)` read the pair at the
cursor, advance the cursor, invoke the callback. A throwing callback
escapes the loop, leaving `length` and the advanced `_first` intact so the
next flush resumes after the throwing entry. On normal completion the
queue is reset (`length = 0; _first = 0`). Returns the invoked pairs in
invocation order, the resulting queue, and the escaped exception if any. -/
def CallQueue.flush (run : κ → α → Except ε Unit) (q : CallQueue κ α) :
    List (κ × α) × CallQueue κ α × Option ε :=
  if h : q.first < q.entries.length then
    let e := q.entries.get ⟨q.first, h⟩
    let q' : CallQueue κ α := { q with first := q.first + 1 }
    match run e.1 e.2 with
    | .error ex => ([e], q', some ex)
    | .ok _ =>
        let r := CallQueue.flush run q'
        (e :: r.1, r.2.1, r.2.2)
  else
    ([], { q with entries := [], first := 0 }, none)
termination_by q.entries.length - q.first

/-- `CallQueue.empty()`: `_first === length`. -/
def CallQueue.isEmpty (q : CallQueue κ α) : Bool :=
  q.first = q.entries.length

/-- Push a whole list of pairs in order. -/
def CallQueue.pushAll (q : CallQueue κ α) : List (κ × α) → CallQueue κ α
  | [] => q
  | e :: es => CallQueue.pushAll (CallQueue.push q e.1 e.2).1 es

/-! ## Async scheduler (src/lib/async.ts)

`Async` owns a `main` ring and an `idle` ring of `CallQueue`s plus a
shared pool. A `Ring` is a FIFO of `CallQueue`s: `enqueue` appends to the
last queue (obtaining a pooled/new queue on overflow) and `flush` drains
queue-by-queue from the front, so the ring as a whole behaves as a single
FIFO of (callback, argument) entries; pooling/recycling only reuses
storage and does not affect entry order. Each ring is therefore modelled
as the list of its queued tasks in FIFO order.

The model is generic: `γ` is whatever further state task execution needs,
`τ` the task type, and execution is a function on the whole scheduler
state, so a running task can enqueue new tasks exactly like source
callbacks calling `async.enqueue` / `async.enqueueIdle`. Because entries
are popped before invocation (`CallQueue.flush` advances `_first` first)
and new work is appended at the tail of the rings, popping the head and
letting `run` append reproduces the source order — including the fact
that during the idle phase `_mainRing` *is* the ring being drained, so
newly enqueued normal work lands behind the remaining idle batch.

The `_scheduled`/`_schedule` host-scheduler plumbing (re-arming a future
flush) and the `assert(!this._flushing)` reentrancy guard are not part of
the model: tasks here cannot call `flush` and the host scheduler is an
external collaborator; neither affects execution order within one flush.
Execution is fuelled since callbacks may enqueue without bound. -/

/-- Scheduler state: task-specific state `st` plus the two rings. -/
structure Sched (γ τ : Type) where
  st : γ
  mainQ : List τ
  idleQ : List τ

/-- `Async.enqueue(callback, arg)`: append to the main ring. -/
def Sched.enqueue (s : Sched γ τ) (t : τ) : Sched γ τ :=
  { s with mainQ := s.mainQ ++ [t] }

/-- `Async.enqueueIdle(callback, arg)`: append to the idle ring. -/
def Sched.enqueueIdle (s : Sched γ τ) (t : τ) : Sched γ τ :=
  { s with idleQ := s.idleQ ++ [t] }

/-- `this._mainRing.flush()`: pop and run tasks from the main ring until
it is empty. A task that throws escapes the drain with the queues as they
stand (cursor already advanced past the throwing task, its enqueues
retained). The third component reports running out of fuel. -/
def drainMain (run : Sched γ τ → τ → Sched γ τ × Option ε) :
    Nat → Sched γ τ → Sched γ τ × Option ε × Bool
  | 0, s => (s, none, !s.mainQ.isEmpty)
  | fuel + 1, s =>
      match s.mainQ with
      | [] => (s, none, false)
      | t :: rest =>
          let r := run { s with mainQ := rest } t
          match r.2 with
          | some e => (r.1, some e, false)
          | none => drainMain run fuel r.1

/-- `Async.flush()`: loop — fully drain the main ring; if the idle ring
is also empty, stop; otherwise swap the rings (the drained main ring is
empty, so the swap makes the idle batch the new main ring and leaves an
empty idle ring) and repeat. A thrown error escapes the whole flush with
the remaining queues intact. `swaps` bounds loop iterations, `fuel` each
drain. -/
def asyncFlush (run : Sched γ τ → τ → Sched γ τ × Option ε) :
    Nat → Nat → Sched γ τ → Sched γ τ × Option ε × Bool
  | 0, _, s => (s, none, true)
  | swaps + 1, fuel, s =>
      match drainMain run fuel s with
      | (s', some e, b) => (s', some e, b)
      | (s', none, true) => (s', none, true)
      | (s', none, false) =>
          if s'.idleQ.isEmpty then (s', none, false)
          else asyncFlush run swaps fuel { s' with mainQ := s'.idleQ, idleQ := [] }

/-! ### Scheduler-ordering test harness

Concrete tasks for proving flush-ordering properties: a task is a named
callback whose only effect when run is to enqueue further (inert,
named) callbacks on the main and/or idle ring, mirroring test callbacks
that call `async.enqueue` / `async.enqueueIdle`. The scheduler state `st`
is the execution log of callback names. -/

/-- A named callback together with the names of the normal-priority and
idle-priority callbacks it enqueues while running (each enqueued callback
itself does nothing). -/
structure NamedTask where
  name : String
  spawnMain : List String
  spawnIdle : List String
deriving Repr, DecidableEq

/-- A callback that does nothing but run. -/
def NamedTask.inert (n : String) : NamedTask := ⟨n, [], []⟩

/-- Scheduler state for the harness: the log of executed callback names. -/
abbrev NSched := Sched (List String) NamedTask

/-- Run a `NamedTask`: log its name, then perform its
`async.enqueue`/`async.enqueueIdle` calls in order. Never throws. -/
def runNamed (s : NSched) (t : NamedTask) : NSched × Option Empty :=
  ({ st := s.st ++ [t.name],
     mainQ := s.mainQ ++ t.spawnMain.map NamedTask.inert,
     idleQ := s.idleQ ++ t.spawnIdle.map NamedTask.inert }, none)

/-! ## Promise (src/lib/Promise.ts)

The promise heap, state machine, resolution algorithm and handler
unwrapping. Global modelling choices, each noted again at its use site:

* Runtime values are the inductive `Val`. Foreign thenables (arbitrary
  objects with a callable `then`) are not representable; every
  representable non-`Promise` object (arrays, errors) has no callable
  `then`, so Promises/A+ step 2.3.3.4 / 2.3.4 (fulfill with the value)
  applies to all of them.
* Long traces are off (`longTraces = false`, the default): `_setSource`
  and the rejection stack mangling in `_reject` are no-ops, and `.done()`
  uses the shared `dummyDoneTrace` (trace contents are not modelled, only
  the presence of the `done` marker on a handler).
* The three rejection-notification handlers are the defaults installed at
  module load: `onUnhandledRejection` throws `UnhandledRejection(reason)`,
  the two possibly-unhandled handlers emit environment events/console
  warnings, modelled as entries in an instrumentation log.
* User callbacks passed to `.then()`/`.done()` are opaque ids whose
  behaviour — return a value or throw — is supplied externally
  (`runCB`); a JS function value is `some id`, a missing/non-function
  callback is `none`.
* A thrown JS value is modelled as the `Option Val`/`Except`-style second
  component of an operation's result; `util.assert` throws
  `Error("assertion failed" [+ ": " + msg])`.
-/

/-- Runtime values: `undefined`, primitives, `Error`-like objects
(`name`, `message`), an `UnhandledRejection` error carrying its original
`reason`, references to heap promises, and arrays. -/
inductive Val where
  | undef
  | boolV (b : Bool)
  | numV (n : Int)
  | strV (s : String)
  | errV (name msg : String)
  | unhandledRejection (reason : Val)
  | pref (id : Nat)
  | arrV (vs : List Val)
deriving Repr

/-- JS truthiness for `Val` (`NaN` is not representable). -/
def Val.truthy : Val → Bool
  | .undef => false
  | .boolV b => b
  | .numV n => n != 0
  | .strV s => s != ""
  | _ => true

/-- The `.reason` property of a `BaseUnhandledRejection` error object. -/
def Val.reasonOf : Val → Option Val
  | .unhandledRejection r => some r
  | _ => none

/-- The `Error` thrown by `util.assert(cond)` with no message. -/
def assertFailed : Val := .errV "Error" "assertion failed"

/-- The `Error` thrown by `util.assert(cond, msg)`. -/
def assertFailedMsg (msg : String) : Val :=
  .errV "Error" ("assertion failed: " ++ msg)

/-- The `TypeError` from `_resolve` on self-resolution. -/
def typeErrorSelf : Val := .errV "TypeError" "cannot resolve Promise to self"

/-- Promise states (`State.Pending/Fulfilled/Rejected`); the fulfillment
value / rejection reason (`_result`) is stored with the state, which it is
assigned together with in the source. -/
inductive PState where
  | pending
  | fulfilled (v : Val)
  | rejected (r : Val)
deriving Repr

/-- A queued subscription (`Handler<T, R>`): owning promise id, the two
optional callbacks, the optional slave promise id, and whether this is a
`.done()` handler (`done: Trace`, present iff `slave` is absent; the
trace's contents are not modelled). -/
structure HandlerRec where
  promise : Nat
  onFulfilled : Option Nat
  onRejected : Option Nat
  slave : Option Nat
  doneT : Bool
deriving Repr, DecidableEq

/-- Per-promise record: `_state` (with `_result`), `_handlers` (the
source's `undefined` is the empty list), and the two `Flags` bits
`RejectionHandled` and `UnhandledRejectionNotified`. The diagnostic `_id`
is the heap index; `_trace` is absent (long traces off). -/
structure PromiseRec where
  state : PState
  handlers : List HandlerRec
  handled : Bool
  notified : Bool
deriving Repr

/-- A freshly constructed promise (`new Promise(internalResolver)`). -/
def freshRec : PromiseRec := ⟨.pending, [], false, false⟩

/-- Tasks placed on the `async` scheduler by the promise layer:
`Promise._unwrapper` with its handler, `Promise._unhandledRejectionChecker`
with its promise, and the two default possibly-unhandled notification
handlers with theirs. -/
inductive PTask where
  | unwrap (h : HandlerRec)
  | checkUnhandled (id : Nat)
  | notifyPossiblyUnhandled (id : Nat)
  | notifyHandled (id : Nat)
deriving Repr, DecidableEq

/-- Instrumentation log entries: a `.then()`/`.done()` user callback was
invoked (recording the value of `unwrappingPromise` at that moment), the
default possibly-unhandled handler emitted its event/warning, or the
default rejection-handled handler emitted its event. -/
inductive PEv where
  | cbInvoked (fence : Option Nat)
  | warned (id : Nat)
  | rejectionHandledEmitted (id : Nat)
deriving Repr, DecidableEq

/-- The promise heap: promise records by id, and the next fresh id
(`promiseIdCounter`). -/
structure PHeap where
  recs : Nat → PromiseRec
  next : Nat

/-- Module-global promise state: the heap, the `unwrappingPromise`
fence, and the instrumentation log. -/
structure PCore where
  heap : PHeap
  fence : Option Nat
  events : List PEv

/-- Full promise-layer state: `PCore` plus the `async` scheduler's two
rings of pending tasks. -/
abbrev PCtx := Sched PCore PTask

/-- The empty initial state: no promises, no fence, no queued tasks. -/
def pctx0 : PCtx := ⟨⟨⟨fun _ => freshRec, 0⟩, none, []⟩, [], []⟩

/-- Look up a promise record. -/
def getP (ctx : PCtx) (id : Nat) : PromiseRec := ctx.st.heap.recs id

/-- Store a promise record. -/
def setP (ctx : PCtx) (id : Nat) (r : PromiseRec) : PCtx :=
  { ctx with st := { ctx.st with heap := { ctx.st.heap with recs := Function.update ctx.st.heap.recs id r } } }

/-- Assign the `unwrappingPromise` global. -/
def setFence (ctx : PCtx) (f : Option Nat) : PCtx :=
  { ctx with st := { ctx.st with fence := f } }

/-- Append an instrumentation event. -/
def logEv (ctx : PCtx) (e : PEv) : PCtx :=
  { ctx with st := { ctx.st with events := ctx.st.events ++ [e] } }

/-- `new Promise(internalResolver)`: allocate a fresh pending promise. -/
def newPromise (ctx : PCtx) : PCtx × Nat :=
  ({ ctx with st := { ctx.st with heap :=
      ⟨Function.update ctx.st.heap.recs ctx.st.heap.next freshRec, ctx.st.heap.next + 1⟩ } },
   ctx.st.heap.next)

/-- An operation that can throw: resulting state plus the thrown value. -/
abbrev PRes := PCtx × Option Val

/-- `Promise._setRejectionHandled()`: if the rejection was not yet
handled but has already been notified as possibly unhandled, enqueue the
rejection-handled handler (normal priority); then set the
`RejectionHandled` flag. -/
def setRejectionHandled (ctx : PCtx) (id : Nat) : PCtx :=
  let p := getP ctx id
  let ctx1 := if !p.handled && p.notified then ctx.enqueue (.notifyHandled id) else ctx
  setP ctx1 id { p with handled := true }

/-- `Promise._doCheckUnhandledRejection()`: run from the idle-queue
checker; if the rejection is still neither handled nor notified, set the
`UnhandledRejectionNotified` flag and enqueue the possibly-unhandled
handler (normal priority). -/
def doCheckUnhandledRejection (ctx : PCtx) (id : Nat) : PCtx :=
  let p := getP ctx id
  if !p.handled && !p.notified then
    (setP ctx id { p with notified := true }).enqueue (.notifyPossiblyUnhandled id)
  else
    ctx

/-- `Promise._flush()`: clear the handler queue and enqueue
`Promise._unwrapper` once per handler, in order (never batched, so one
throwing `.done()` cannot prevent later handlers from running). -/
def flushHandlers (ctx : PCtx) (id : Nat) : PCtx :=
  let p := getP ctx id
  { setP ctx id { p with handlers := [] } with
    mainQ := ctx.mainQ ++ p.handlers.map .unwrap }

/-- `Promise._fulfill(value)`: assert pending, set state and result,
flush the handler queue. -/
def fulfill (ctx : PCtx) (id : Nat) (v : Val) : PRes :=
  let p := getP ctx id
  match p.state with
  | .pending => (flushHandlers (setP ctx id { p with state := .fulfilled v }) id, none)
  | _ => (ctx, some assertFailed)

/-- `Promise._reject(reason)`: assert pending, set state and reason
(the long-trace stack augmentation is a no-op with tracing off); if the
rejection is not yet handled, enqueue the unhandled-rejection checker on
the idle queue; flush the handler queue. -/
def reject (ctx : PCtx) (id : Nat) (r : Val) : PRes :=
  let p := getP ctx id
  match p.state with
  | .pending =>
      let ctx1 := setP ctx id { p with state := .rejected r }
      let ctx2 := if !p.handled then ctx1.enqueueIdle (.checkUnhandled id) else ctx1
      (flushHandlers ctx2 id, none)
  | _ => (ctx, some assertFailed)

/-- `Promise._enqueue(onFulfilled, onRejected, slave, done)`: build the
handler; if the promise is already settled schedule it on the main queue
immediately, otherwise append it to the promise's handler queue; in
either case mark the rejection handled. -/
def enqueueHandler (ctx : PCtx) (id : Nat) (onF onR : Option Nat)
    (slave : Option Nat) (doneT : Bool) : PCtx :=
  let h : HandlerRec := ⟨id, onF, onR, slave, doneT⟩
  let p := getP ctx id
  let ctx1 :=
    match p.state with
    | .pending => setP ctx id { p with handlers := p.handlers ++ [h] }
    | _ => ctx.enqueue (.unwrap h)
  setRejectionHandled ctx1 id

/-- `this._followPromise(x)` for pending `x`: assert that `this` is
pending, then attach `this` to `x`'s handler queue as a follower
(`x._enqueue(undefined, undefined, this, undefined)`). -/
def followPromise (ctx : PCtx) (id xid : Nat) : PRes :=
  match (getP ctx id).state with
  | .pending => (enqueueHandler ctx xid none none (some id) false, none)
  | _ => (ctx, some assertFailed)

/-- `Promise._resolve(x)`: assert pending; falsy values fulfill
directly; resolving a promise to itself rejects with a TypeError; another
library promise is adopted (marking its rejection handled, following it
if pending, copying its result if settled); all other representable
values have no callable `then` (foreign thenables are outside `Val`), so
they fulfill, per 2.3.3.4/2.3.4. `_setSource` is a no-op (tracing off). -/
def resolve (ctx : PCtx) (id : Nat) (x : Val) : PRes :=
  match (getP ctx id).state with
  | .pending =>
      if !x.truthy then fulfill ctx id x
      else
        match x with
        | .pref xid =>
            if xid = id then reject ctx id typeErrorSelf
            else
              let ctx1 := setRejectionHandled ctx xid
              match (getP ctx1 xid).state with
              | .pending => followPromise ctx1 id xid
              | .fulfilled v => fulfill ctx1 id v
              | .rejected r => reject ctx1 id r
        | _ => fulfill ctx id x
  | _ => (ctx, some assertFailed)

/-- The short-circuit test of `Promise#then`: the callback relevant to
the current settled state is absent. -/
def thenShortCircuits (p : PromiseRec) (onF onR : Option Nat) : Bool :=
  match p.state, onF, onR with
  | .fulfilled _, none, _ => true
  | .rejected _, _, none => true
  | _, _, _ => false

/-- `Promise#then(onFulfilled, onRejected)`: short-circuit by returning
this promise unchanged when no callback could apply; otherwise allocate
the slave promise and enqueue a handler resolving it (`_setSource` is a
no-op with tracing off). Returns the resulting promise's id. -/
def promiseThen (ctx : PCtx) (id : Nat) (onF onR : Option Nat) : PCtx × Nat :=
  if thenShortCircuits (getP ctx id) onF onR then (ctx, id)
  else
    let (ctx1, slave) := newPromise ctx
    (enqueueHandler ctx1 id onF onR (some slave) false, slave)

/-- The short-circuit test of `Promise#done`: fulfilled with no
fulfillment callback. -/
def doneShortCircuits (p : PromiseRec) (onF : Option Nat) : Bool :=
  match p.state, onF with
  | .fulfilled _, none => true
  | _, _ => false

/-- `Promise#done(onFulfilled, onRejected)`: return immediately when
fulfilled with no fulfillment callback; otherwise enqueue a handler
marked with the (dummy) done trace and no slave. -/
def promiseDone (ctx : PCtx) (id : Nat) (onF onR : Option Nat) : PCtx :=
  if doneShortCircuits (getP ctx id) onF then ctx
  else enqueueHandler ctx id onF onR none true

/-- `Promise.resolve(value)`: allocate a fresh promise and `_resolve` it.
The fresh promise is pending, so `_resolve` cannot assert-throw; the
error component is dropped accordingly. -/
def promiseResolveStatic (ctx : PCtx) (v : Val) : PCtx × Nat :=
  let (ctx1, id) := newPromise ctx
  ((resolve ctx1 id v).1, id)

/-- `Promise.reject(reason)`: allocate a fresh promise and `_reject` it.
The fresh promise is pending, so `_reject` cannot assert-throw. -/
def promiseRejectStatic (ctx : PCtx) (r : Val) : PCtx × Nat :=
  let (ctx1, id) := newPromise ctx
  ((reject ctx1 id r).1, id)

/-- `result instanceof Promise ? result : Promise.resolve(result)` in the
`.done()` branch of `_unwrap`. -/
def toPromise (ctx : PCtx) (v : Val) : PCtx × Nat :=
  match v with
  | .pref id => (ctx, id)
  | _ => promiseResolveStatic ctx v

/-- `Promise._unwrap(handler)` with user-callback behaviour supplied by
`runCB` (`.ok` = returned value, `.error` = threw). Mirrors the source's
three scenarios and its fence discipline exactly:

* `.done()` handler, no applicable callback: throw
  `UnhandledRejection(reason)` (the default handler) iff rejected.
* `.done()` handler with callback: assert the fence is free, set it to
  this promise, invoke the callback (logging the fence at invocation); on
  return, a truthy result is converted to a promise whose rejection is
  re-thrown via `.done()`; the fence is cleared on the normal path and in
  the catch path before the default unhandled-rejection handler throws.
* `.then()` handler with callback: assert the fence is free, set it to
  the slave, `try { slave._resolve(callback(result)) } catch (e) {
  slave._reject(e) }` — the catch also catches a `_resolve` assert-throw,
  and a `_reject` throw escapes *without* clearing the fence, exactly as
  in the source, where the clearing statement sits after the catch block.
* No callback: pass the result through to the slave (fulfilled →
  `_fulfill`, otherwise `_reject`, the source's if/else). -/
def unwrapTask (runCB : Nat → Val → Except Val Val) (ctx : PCtx) (h : HandlerRec) : PRes :=
  let p := getP ctx h.promise
  let callback := match p.state with
    | .fulfilled _ => h.onFulfilled
    | _ => h.onRejected
  let result := match p.state with
    | .fulfilled v => v
    | .rejected r => r
    | .pending => .undef
  if h.doneT then
    match callback with
    | none =>
        match p.state with
        | .rejected r => (ctx, some (.unhandledRejection r))
        | _ => (ctx, none)
    | some cb =>
        if ctx.st.fence.isSome then (ctx, some assertFailed)
        else
          let ctx1 := setFence ctx (some h.promise)
          let ctx2 := logEv ctx1 (.cbInvoked ctx1.st.fence)
          match runCB cb result with
          | .ok r =>
              let ctx3 :=
                if r.truthy then
                  let pr := toPromise ctx2 r
                  promiseDone pr.1 pr.2 none none
                else ctx2
              (setFence ctx3 none, none)
          | .error e =>
              ((setFence ctx2 none), some (.unhandledRejection e))
  else
    match h.slave with
    | none => (ctx, none)
    | some sid =>
        match callback with
        | some cb =>
            if ctx.st.fence.isSome then (ctx, some assertFailed)
            else
              let ctx1 := setFence ctx (some sid)
              let ctx2 := logEv ctx1 (.cbInvoked ctx1.st.fence)
              let res :=
                match runCB cb result with
                | .ok v =>
                    match resolve ctx2 sid v with
                    | (c, none) => (c, none)
                    | (c, some e) => reject c sid e
                | .error e => reject ctx2 sid e
              match res with
              | (c, none) => (setFence c none, none)
              | (c, some e2) => (c, some e2)
        | none =>
            match p.state with
            | .fulfilled v => fulfill ctx sid v
            | _ => reject ctx sid result

/-- Execute one scheduler task of the promise layer: `_unwrapper`,
`_unhandledRejectionChecker`, or one of the two default
possibly-unhandled notification handlers (which emit environment events,
modelled as log entries, and never throw). -/
def runPTask (runCB : Nat → Val → Except Val Val) (ctx : PCtx) (t : PTask) : PCtx × Option Val :=
  match t with
  | .unwrap h => unwrapTask runCB ctx h
  | .checkUnhandled id => (doCheckUnhandledRejection ctx id, none)
  | .notifyPossiblyUnhandled id => (logEv ctx (.warned id), none)
  | .notifyHandled id => (logEv ctx (.rejectionHandledEmitted id), none)

/-! ### Constructor protocol and Deferred (src/lib/Promise.ts)

The constructor runs the resolver with two one-shot capture functions
sharing a `called` flag; `Promise.defer()` runs the constructor with a
resolver that stores those two functions, so a `Deferred`'s `resolve` and
`reject` are exactly the constructor's capture functions with the shared
flag persisting between calls. A resolver interaction is modelled as
data: the sequence of calls it makes, and the exception it throws at the
end of its body, if any. -/

/-- One call made on a deferred/constructor capture function. -/
inductive RCall where
  | res (v : Val)
  | rej (r : Val)
deriving Repr

/-- A `Deferred`: the promise id plus the shared `called` flag captured by
its `resolve`/`reject` free functions. -/
structure DeferredM where
  pid : Nat
  called : Bool
deriving Repr, DecidableEq

/-- `Promise.defer()`: a fresh pending promise with its capture state. -/
def deferNew (ctx : PCtx) : PCtx × DeferredM :=
  let (ctx1, id) := newPromise ctx
  (ctx1, ⟨id, false⟩)

/-- One invocation of a deferred's `resolve` or `reject` function:
`if (called) return; called = true; this._resolve(y)` (respectively
`this._reject(wrapNonError(r))`, with `wrapNonError` the identity). The
third component is an exception escaping the call (impossible when the
promise is still pending, see `resolve_pending_ok` below). -/
def deferredCall (ctx : PCtx) (d : DeferredM) (c : RCall) : PCtx × DeferredM × Option Val :=
  if d.called then (ctx, d, none)
  else
    match c with
    | .res v =>
        let r := resolve ctx d.pid v
        (r.1, { d with called := true }, r.2)
    | .rej e =>
        let r := reject ctx d.pid e
        (r.1, { d with called := true }, r.2)

/-- The calls a resolver makes, in order, and the exception its body
throws after them (if any). -/
structure ResolverScript where
  calls : List RCall
  thrown : Option Val
deriving Repr

/-- Run the resolver's calls in order. An exception escaping a capture
function aborts the rest of the resolver body and propagates. -/
def runCalls (ctx : PCtx) (d : DeferredM) : List RCall → PCtx × DeferredM × Option Val
  | [] => (ctx, d, none)
  | c :: cs =>
      match deferredCall ctx d c with
      | (ctx1, d1, none) => runCalls ctx1 d1 cs
      | (ctx1, d1, some e) => (ctx1, d1, some e)

/-- The constructor's catch clause (2.3.3.3.4): an exception from the
resolver body is ignored if `resolve`/`reject` was already called,
otherwise it becomes the rejection reason. The rejected promise is
necessarily pending here (`called` is false), so `_reject` cannot
assert-throw and its error component is dropped. -/
def catchReject (ctx : PCtx) (d : DeferredM) (e : Val) : PCtx :=
  if !d.called then (reject ctx d.pid e).1 else ctx

/-- `new Promise(resolver)` for a resolver behaving as scripted: allocate
the promise, run the resolver's calls through the shared-flag capture
functions, and apply the catch clause to an exception from a capture
function or from the end of the resolver body. Returns the new promise's
id. -/
def constructorRun (ctx : PCtx) (s : ResolverScript) : PCtx × Nat :=
  let (ctx1, d) := deferNew ctx
  match runCalls ctx1 d s.calls with
  | (ctx2, d2, none) =>
      match s.thrown with
      | some e => (catchReject ctx2 d2 e, d2.pid)
      | none => (ctx2, d2.pid)
  | (ctx2, d2, some e) => (catchReject ctx2 d2 e, d2.pid)

/-! ### Promise.all / Promise.race (src/lib/Promise.ts)

`Promise.all(thenables)` runs a resolver that asserts `thenables` is an
array, resolves immediately with `[]` for an empty array, and otherwise
subscribes once to each element with `slave.done(onElementFulfilled,
(reason) => reject(reason))`, sharing the mutable `result` array, the
`remaining` count, and the constructor's one-shot `resolve`/`reject`
capture functions. Only the arrayness and length of the argument are
inspected by this state machine; the elements' eventual settlements are
delivered by the scheduler as events, one per element (exactly one
subscription each), in an arbitrary report order modelled as a list. -/

/-- Argument to `Promise.all`/`Promise.race` as far as the combinator
inspects it. -/
inductive ThenArg where
  | nonArray
  | array (n : Nat)
deriving Repr, DecidableEq

/-- The error thrown by `assert(Array.isArray(thenables), "thenables
must be an Array")`. -/
def allAssertError : Val := assertFailedMsg "thenables must be an Array"

/-- State of one `Promise.all` invocation: the shared `result` array
(a slot per input element), the `remaining` count, the constructor's
`called` flag, and the returned promise's state. -/
structure AllSt where
  result : List (Option Val)
  remaining : Nat
  called : Bool
  pstate : PState
deriving Repr

/-- The constructor's `resolve(result)` capture function applied to the
shared result array: first call wins; `_resolve` of an array value
fulfills with it (truthy, not a promise, no callable `then`). Unset slots
read as `undefined`, like JS array holes. -/
def allResolveArr (s : AllSt) : AllSt :=
  if s.called then s
  else { s with called := true,
                pstate := .fulfilled (.arrV (s.result.map (fun o => o.getD .undef))) }

/-- The constructor's `reject(reason)` capture function: first call wins;
`_reject` stores the reason. -/
def allReject (s : AllSt) (r : Val) : AllSt :=
  if s.called then s
  else { s with called := true, pstate := .rejected r }

/-- The synchronous part of `Promise.all(thenables)`. A non-array
argument makes the asserted resolver throw before either capture function
is called, and the constructor's catch clause turns that assertion
`Error` into the returned promise's rejection (this conversion is proved
on `constructorRun` in the C10 theorem). An empty array calls
`resolve([])` at once. Otherwise `result` is preallocated, `remaining`
set, and one subscription made per element. -/
def allRun : ThenArg → AllSt
  | .nonArray => ⟨[], 0, true, .rejected allAssertError⟩
  | .array n =>
      if n = 0 then allResolveArr ⟨[], 0, false, .pending⟩
      else ⟨List.replicate n none, n, false, .pending⟩

/-- A settlement report for input element `i`, delivered by the
element's single `done(onFulfilled, onRejected)` subscription. -/
inductive SettleEv where
  | fulfilledAt (i : Nat) (v : Val)
  | rejectedAt (i : Nat) (r : Val)
deriving Repr

/-- The input index a settlement report concerns. -/
def SettleEv.index : SettleEv → Nat
  | .fulfilledAt i _ => i
  | .rejectedAt i _ => i

/-- Processing one settlement report, mirroring the two `done` callbacks
of `follow(t, index)`: on fulfillment store the value, decrement
`remaining`, and call `resolve(result)` when it reaches zero; on
rejection call `reject(reason)`. -/
def allStep (s : AllSt) : SettleEv → AllSt
  | .fulfilledAt i v =>
      let s1 := { s with result := s.result.set i (some v), remaining := s.remaining - 1 }
      if s1.remaining = 0 then allResolveArr s1 else s1
  | .rejectedAt _ r => allReject s r

/-- `Promise.all` over an input of `n` elements whose settlements are
reported in the order given. -/
def allFold (n : Nat) (evs : List SettleEv) : AllSt :=
  evs.foldl allStep (allRun (.array n))

/-- State of one `Promise.race` invocation (only as much of it as the
non-array claim needs): the `called` flag and the returned promise's
state. Its resolver performs the same array assertion before subscribing
`done(resolve, reject)` to each element. -/
structure RaceSt where
  called : Bool
  pstate : PState
deriving Repr

/-- The synchronous part of `Promise.race(thenables)`: a non-array
argument rejects with the assertion error via the constructor's catch
clause, exactly as for `Promise.all`; an array leaves the promise pending
until an element settles. -/
def raceRun : ThenArg → RaceSt
  | .nonArray => ⟨true, .rejected allAssertError⟩
  | .array _ => ⟨false, .pending⟩

/-! ### Concrete scenario for the `.done()` unhandled-rejection claim -/

/-- The state after `Promise.reject(E).done()` (no callbacks), starting
from the empty state: one rejected promise, an `_unwrapper` task on the
main queue and the unhandled-rejection checker on the idle queue. -/
def rejectDoneCtx (e : Val) : PCtx :=
  let r := promiseRejectStatic pctx0 e
  promiseDone r.1 r.2 none none

/-- A one-promise state whose promise 0 is rejected, not yet marked
handled, and already notified as possibly unhandled — the situation of a
late-bound attachment. -/
def rejectedNotifiedCtx : PCtx :=
  ⟨⟨⟨fun _ => ⟨.rejected (.strV "e"), [], false, true⟩, 1⟩, none, []⟩, [], []⟩

/-! # Theorems -/

/-! ## C7 — Trace.setSource / Trace.inspect -/

/-- C7, counterexample. The claim states that `setSource` truncates the
flattened ancestor list "by dropping the oldest entries" and keeps it
"ordered newest-first internally". Take a source trace with ten ancestor
stacks "0" (oldest) … "9" and its own stack "10" (the newest of its
eleven stacks). The code computes `slice(0, 10)` of the
oldest-first list, producing exactly ["0", …, "9"]: the newest stack
"10" is dropped and the oldest stack "0" is kept — the opposite of the
claimed truncation — and the head of the stored list is the *oldest*
entry, not the newest. -/
theorem c7_truncation_counterexample :
    (TraceM.setSource ⟨"here", none⟩
        ⟨"10", some ["0", "1", "2", "3", "4", "5", "6", "7", "8", "9"]⟩).sources
      = some ["0", "1", "2", "3", "4", "5", "6", "7", "8", "9"]
    ∧ "10" ∉ ["0", "1", "2", "3", "4", "5", "6", "7", "8", "9"]
    ∧ ["0", "1", "2", "3", "4", "5", "6", "7", "8", "9"].head? = some "0" := by
  refine ⟨?_, by decide, rfl⟩
  decide

/-- C7, amended: `t.setSource(s)` sets `t`'s ancestor list to `s`'s
stacks flattened (`s`'s ancestors followed by `s`'s own stack), truncated
to at most `Trace.traceLimit` (default 10) entries by keeping the *first*
(oldest) entries and dropping the newest beyond the limit; the list is
ordered oldest-first internally, and `inspect()` prints "here" followed
by each ancestor under a "from previous" separator, iterating the list
from its end so that the newest retained ancestor is adjacent to
"here". -/
theorem c7_setSource_flatten_truncate (t s : TraceM) :
    (t.setSource s).sources = some (s.flattened.take traceLimit)
    ∧ (t.setSource s).inspect
        = t.stack ++ String.join ((s.flattened.take traceLimit).reverse.map
            (fun a => "\n  from previous:\n" ++ a)) := by
  have hsrc : (t.setSource s).sources = some (s.flattened.take traceLimit) := by
    unfold TraceM.setSource TraceM.flattened
    match s.sources with
    | none => simp [traceLimit]
    | some ss =>
        simp only
        split
        · rfl
        · next hle =>
            rw [List.take_of_length_le (by omega)]
  have hstack : (t.setSource s).stack = t.stack := by
    unfold TraceM.setSource
    match s.sources with
    | none => rfl
    | some ss => simp only; split <;> rfl
  refine ⟨hsrc, ?_⟩
  unfold TraceM.inspect
  rw [hsrc, hstack]

/-- C2, counterexample. Two idle callbacks are queued ("idle1", then
"idle2"); "idle1", while running during idle processing, enqueues the
normal-priority callback "normal" — so "normal" is enqueued to the main
ring while idle work is being processed, and "idle2" is idle work that
was enqueued earlier than it. The claim requires "normal" to run before
"idle2". The code executes ["idle1", "idle2", "normal"]: after the ring
swap, `_mainRing` is the very ring holding the idle batch, so the newly
enqueued normal callback lands behind the remaining idle work (this is
the order the library's own test "completes idle queue, then new
normals, then new idles" pins down). -/
theorem c2_counterexample :
    (asyncFlush runNamed 3 3
        ⟨[], [], [⟨"idle1", ["normal"], []⟩, NamedTask.inert "idle2"]⟩).1.st
      = ["idle1", "idle2", "normal"]
    ∧ ¬ (["idle1", "idle2", "normal"].indexOf "normal"
          < ["idle1", "idle2", "normal"].indexOf "idle2") := by
  exact ⟨rfl, by decide⟩

/-! ## C3 — CallQueue flush resumability -/

/-- Pushing a list of pairs appends them to the slot array; the cursor
and capacity are untouched. -/
theorem pushAll_spec (es : List (κ × α)) (q : CallQueue κ α) :
    q.pushAll es = ⟨q.entries ++ es, q.first, q.max⟩ := by
  induction es generalizing q with
  | nil => simp [CallQueue.pushAll]
  | cons e es ih => simp [CallQueue.pushAll, CallQueue.push, ih]

/-- A flush that completes (no callback threw) invokes exactly the
pending entries — the entries from the cursor on — in order. -/
theorem flush_complete (run : κ → α → Except ε Unit) (q : CallQueue κ α)
    (h : (CallQueue.flush run q).2.2 = none) :
    (CallQueue.flush run q).1 = q.entries.drop q.first := by
  rw [CallQueue.flush] at h ⊢
  by_cases hlt : q.first < q.entries.length
  · rw [dif_pos hlt] at h ⊢
    simp only [List.get_eq_getElem] at h ⊢
    cases hr : run q.entries[q.first].1 q.entries[q.first].2 with
    | error ex =>
        rw [hr] at h
        simp at h
    | ok a =>
        rw [hr] at h
        simp only at h ⊢
        rw [List.drop_eq_getElem_cons hlt]
        have ih := flush_complete run { q with first := q.first + 1 } h
        simp only at ih
        rw [ih]
  · rw [dif_neg hlt] at h ⊢
    rw [List.drop_eq_nil_of_le (by omega)]
termination_by q.entries.length - q.first

/-- Resumability: whatever the first flush's callbacks did (including
throwing mid-queue), if a second flush then completes, the two flushes
together invoke exactly the entries that were pending before the first
flush, in order — nothing re-run, nothing skipped. -/
theorem flush_resume (run run2 : κ → α → Except ε Unit) (q : CallQueue κ α)
    (h : (CallQueue.flush run2 (CallQueue.flush run q).2.1).2.2 = none) :
    (CallQueue.flush run q).1 ++ (CallQueue.flush run2 (CallQueue.flush run q).2.1).1
      = q.entries.drop q.first := by
  rw [CallQueue.flush.eq_def run q] at h ⊢
  by_cases hlt : q.first < q.entries.length
  · rw [dif_pos hlt] at h ⊢
    simp only [List.get_eq_getElem] at h ⊢
    cases hr : run q.entries[q.first].1 q.entries[q.first].2 with
    | error ex =>
        rw [hr] at h
        simp only at h ⊢
        rw [List.drop_eq_getElem_cons hlt]
        have h2 := flush_complete run2 { q with first := q.first + 1 } h
        simp only at h2
        rw [h2]
        rfl
    | ok a =>
        rw [hr] at h
        simp only at h ⊢
        rw [List.drop_eq_getElem_cons hlt]
        have ih := flush_resume run run2 { q with first := q.first + 1 } h
        simp only at ih
        rw [List.cons_append, ih]
  · rw [dif_neg hlt] at h ⊢
    simp only at h ⊢
    have h2 := flush_complete run2 ⟨[], 0, q.max⟩ h
    simp at h2
    rw [h2, List.drop_eq_nil_of_le (le_of_not_lt hlt)]
    rfl
termination_by q.entries.length - q.first

/-- C3: for every sequence of pushed (callback, argument) pairs and every
callback behaviour, if a callback throws during `flush()` the remainder
of that flush is aborted (the exception escapes `CallQueue.flush`), but
the queue state stays valid: a subsequent flush that completes invokes
exactly the remaining pairs, and across the two flushes every pushed pair
is invoked exactly once, in FIFO order — the concatenation of the two
invocation logs is exactly the pushed sequence, so the throwing entry is
not re-run and no entry is skipped. -/
theorem c3_two_flushes_invoke_exactly_once (es : List (κ × α))
    (run run2 : κ → α → Except ε Unit)
    (h : (CallQueue.flush run2 (CallQueue.flush run ((CallQueue.new κ α).pushAll es)).2.1).2.2 = none) :
    (CallQueue.flush run ((CallQueue.new κ α).pushAll es)).1
      ++ (CallQueue.flush run2 (CallQueue.flush run ((CallQueue.new κ α).pushAll es)).2.1).1
      = es := by
  have hq : (CallQueue.new κ α).pushAll es = ⟨es, 0, 1000⟩ := by
    rw [pushAll_spec]
    rfl
  rw [hq] at h ⊢
  simpa using flush_resume run run2 ⟨es, 0, 1000⟩ h

/-- C3, witness: three pairs pushed; the middle callback throws during
the first flush; the second flush completes and the two flushes together
invoke exactly the three pairs in order. -/
theorem c3_witness :
    (CallQueue.flush (fun _ _ => (Except.ok () : Except String Unit))
        (CallQueue.flush (fun k (_ : Nat) => if k == 1 then .error "boom" else .ok ())
          ((CallQueue.new Nat Nat).pushAll [(0, 10), (1, 11), (2, 12)])).2.1).2.2 = none
    ∧ (CallQueue.flush (fun k (_ : Nat) => if k == 1 then .error "boom" else .ok ())
          ((CallQueue.new Nat Nat).pushAll [(0, 10), (1, 11), (2, 12)])).1
        ++ (CallQueue.flush (fun _ _ => (Except.ok () : Except String Unit))
            (CallQueue.flush (fun k (_ : Nat) => if k == 1 then .error "boom" else .ok ())
              ((CallQueue.new Nat Nat).pushAll [(0, 10), (1, 11), (2, 12)])).2.1).1
      = [(0, 10), (1, 11), (2, 12)] :=
  ⟨by simp [CallQueue.flush, CallQueue.pushAll, CallQueue.push, CallQueue.new],
   c3_two_flushes_invoke_exactly_once [(0, 10), (1, 11), (2, 12)] _ _
     (by simp [CallQueue.flush, CallQueue.pushAll, CallQueue.push, CallQueue.new])⟩

/-! ## C2 — Async main/idle flush ordering -/

/-- An inert task is named by its string. -/
theorem map_name_inert (l : List String) :
    l.map (NamedTask.name ∘ NamedTask.inert) = l := by
  have h : NamedTask.name ∘ NamedTask.inert = id := rfl
  rw [h, List.map_id]

/-- Draining a main ring of inert tasks logs them in FIFO order and
leaves the idle ring untouched. -/
theorem drain_inert (R : List NamedTask)
    (hR : ∀ t ∈ R, t.spawnMain = [] ∧ t.spawnIdle = [])
    (g : List String) (I : List NamedTask) (fuel : Nat) (hf : R.length ≤ fuel) :
    drainMain runNamed fuel ⟨g, R, I⟩
      = (⟨g ++ R.map NamedTask.name, [], I⟩, none, false) := by
  induction R generalizing g I fuel with
  | nil => cases fuel <;> simp [drainMain]
  | cons t R ih =>
      cases fuel with
      | zero => simp at hf
      | succ fuel =>
          have ht := hR t (by simp)
          have hR' : ∀ u ∈ R, u.spawnMain = [] ∧ u.spawnIdle = [] :=
            fun u hu => hR u (by simp [hu])
          simp only [drainMain, runNamed, ht.1, ht.2, List.map_nil, List.append_nil]
          rw [ih hR' (g ++ [t.name]) I fuel (by simpa using hf)]
          simp

/-- Draining a main ring that starts with spawning tasks `Q` followed by
inert tasks `R`: the original queue runs first in FIFO order, then every
normal-priority task spawned during the drain (grouped by spawner, in
spawn order); idle-priority spawns accumulate on the idle ring in the
same order. -/
theorem drain_spawn (Q R : List NamedTask)
    (hR : ∀ t ∈ R, t.spawnMain = [] ∧ t.spawnIdle = [])
    (g : List String) (I : List NamedTask) (fuel : Nat)
    (hf : Q.length + R.length + (Q.map (fun t => t.spawnMain.length)).sum ≤ fuel) :
    drainMain runNamed fuel ⟨g, Q ++ R, I⟩
      = (⟨g ++ Q.map NamedTask.name ++ R.map NamedTask.name
            ++ (Q.map NamedTask.spawnMain).flatten,
          [],
          I ++ ((Q.map NamedTask.spawnIdle).flatten).map NamedTask.inert⟩, none, false) := by
  induction Q generalizing R g I fuel with
  | nil =>
      rw [List.nil_append]
      rw [drain_inert R hR g I fuel (by simpa using hf)]
      simp
  | cons q Q ih =>
      cases fuel with
      | zero => simp at hf
      | succ fuel =>
          have hR' : ∀ u ∈ R ++ q.spawnMain.map NamedTask.inert,
              u.spawnMain = [] ∧ u.spawnIdle = [] := by
            intro u hu
            rcases List.mem_append.mp hu with h | h
            · exact hR u h
            · rcases List.mem_map.mp h with ⟨n, _, rfl⟩
              exact ⟨rfl, rfl⟩
          simp only [drainMain, runNamed, List.cons_append]
          rw [List.append_assoc Q R]
          rw [ih (R ++ q.spawnMain.map NamedTask.inert) hR' (g ++ [q.name])
                (I ++ q.spawnIdle.map NamedTask.inert) fuel
                (by simp only [List.length_cons, List.length_append, List.length_map,
                      List.map_cons, List.sum_cons] at hf ⊢; omega)]
          simp [List.map_map, Function.comp, NamedTask.inert, List.append_assoc,
            map_name_inert]

/-- C2, amended: one `flush()` call first drains the main ring (here:
inert tasks `M`) until it is empty, and only then processes idle work.
The whole idle batch `I` that was queued when the swap happened runs to
completion *before* any normal-priority callback enqueued during idle
processing: those newly enqueued normal callbacks run after the batch, in
enqueue order, and before any idle-priority callbacks enqueued during
idle processing, which run last. -/
theorem c2_flush_order (M : List String) (I : List NamedTask) :
    asyncFlush runNamed 3
        (M.length + I.length + (I.map (fun t => t.spawnMain.length)).sum
          + (I.map (fun t => t.spawnIdle.length)).sum)
        ⟨[], M.map NamedTask.inert, I⟩
      = (⟨M ++ I.map NamedTask.name ++ (I.map NamedTask.spawnMain).flatten
            ++ (I.map NamedTask.spawnIdle).flatten, [], []⟩, none, false) := by
  have hMin : ∀ t ∈ M.map NamedTask.inert, t.spawnMain = [] ∧ t.spawnIdle = [] := by
    intro t ht
    rcases List.mem_map.mp ht with ⟨n, _, rfl⟩
    exact ⟨rfl, rfl⟩
  have hMnames : (M.map NamedTask.inert).map NamedTask.name = M := by
    rw [List.map_map]
    exact map_name_inert M
  rw [show (3 : Nat) = 2 + 1 from rfl, asyncFlush]
  rw [drain_inert (M.map NamedTask.inert) hMin [] I _ (by simp; omega)]
  rw [hMnames]
  simp only [List.nil_append]
  by_cases hI : I = []
  · subst hI
    simp
  · rw [if_neg (by simpa using hI)]
    have h2 := drain_spawn I [] (by simp) M []
        (M.length + I.length + (I.map (fun t => t.spawnMain.length)).sum
          + (I.map (fun t => t.spawnIdle.length)).sum)
        (by simp; omega)
    rw [List.append_nil] at h2
    rw [show (2 : Nat) = 1 + 1 from rfl, asyncFlush]
    rw [h2]
    simp only [List.map_nil, List.append_nil, List.nil_append]
    by_cases hJ : (I.map NamedTask.spawnIdle).flatten = []
    · rw [hJ]
      simp
    · rw [if_neg (by simpa using hJ)]
      have hJin : ∀ t ∈ ((I.map NamedTask.spawnIdle).flatten).map NamedTask.inert,
          t.spawnMain = [] ∧ t.spawnIdle = [] := by
        intro t ht
        rcases List.mem_map.mp ht with ⟨n, _, rfl⟩
        exact ⟨rfl, rfl⟩
      have hJnames : (((I.map NamedTask.spawnIdle).flatten).map NamedTask.inert).map
          NamedTask.name = (I.map NamedTask.spawnIdle).flatten := by
        rw [List.map_map]
        exact map_name_inert _
      have hJlen : ((I.map NamedTask.spawnIdle).flatten).length
          = (I.map (fun t => t.spawnIdle.length)).sum := by
        rw [List.length_flatten, List.map_map]
        rfl
      rw [show (1 : Nat) = 0 + 1 from rfl, asyncFlush]
      rw [drain_inert (((I.map NamedTask.spawnIdle).flatten).map NamedTask.inert) hJin _ _ _
            (by simp only [List.length_map]; omega)]
      rw [hJnames]
      simp [List.append_assoc]

/-! ## Promise-layer helper lemmas -/

/-- Reading back a freshly stored record. -/
@[simp] theorem getP_setP_self (ctx : PCtx) (id : Nat) (r : PromiseRec) :
    getP (setP ctx id r) id = r := by
  simp [getP, setP]

/-- Stores to other promises are invisible. -/
theorem getP_setP_ne (ctx : PCtx) (id jd : Nat) (r : PromiseRec) (h : jd ≠ id) :
    getP (setP ctx id r) jd = getP ctx jd := by
  simp [getP, setP, Function.update, h]

@[simp] theorem getP_enqueue (ctx : PCtx) (t : PTask) (id : Nat) :
    getP (Sched.enqueue ctx t) id = getP ctx id := rfl

@[simp] theorem getP_enqueueIdle (ctx : PCtx) (t : PTask) (id : Nat) :
    getP (Sched.enqueueIdle ctx t) id = getP ctx id := rfl

@[simp] theorem getP_setFence (ctx : PCtx) (f : Option Nat) (id : Nat) :
    getP (setFence ctx f) id = getP ctx id := rfl

@[simp] theorem getP_logEv (ctx : PCtx) (e : PEv) (id : Nat) :
    getP (logEv ctx e) id = getP ctx id := rfl

/-- The freshly allocated promise is a fresh pending record. -/
@[simp] theorem getP_newPromise (ctx : PCtx) :
    getP (newPromise ctx).1 (newPromise ctx).2 = freshRec := by
  simp [getP, newPromise]

/-- Allocation does not touch existing promises. -/
theorem getP_newPromise_ne (ctx : PCtx) (id : Nat) (h : id ≠ ctx.st.heap.next) :
    getP (newPromise ctx).1 id = getP ctx id := by
  simp [getP, newPromise, Function.update, h]

/-- `_setRejectionHandled` only changes the target promise's record. -/
theorem getP_setRejectionHandled_ne (ctx : PCtx) (id jd : Nat) (h : jd ≠ id) :
    getP (setRejectionHandled ctx id) jd = getP ctx jd := by
  simp only [setRejectionHandled]
  split <;> simp [getP_setP_ne _ _ _ _ h]

/-- `_reject` on a pending promise does not throw. -/
theorem reject_pending_none (ctx : PCtx) (id : Nat) (r : Val)
    (h : (getP ctx id).state = .pending) :
    (reject ctx id r).2 = none := by
  simp [reject, h]

/-- `_fulfill` on a pending promise does not throw. -/
theorem fulfill_pending_none (ctx : PCtx) (id : Nat) (v : Val)
    (h : (getP ctx id).state = .pending) :
    (fulfill ctx id v).2 = none := by
  simp [fulfill, h]

/-- `_resolve` on a pending promise does not throw: every branch ends in
`_fulfill`/`_reject`/`_followPromise` of the still-pending promise, whose
leading assertions hold. -/
theorem resolve_pending_none (ctx : PCtx) (id : Nat) (v : Val)
    (h : (getP ctx id).state = .pending) :
    (resolve ctx id v).2 = none := by
  unfold resolve
  rw [h]
  by_cases ht : v.truthy
  · simp only [ht, Bool.not_true, Bool.false_eq_true, if_false]
    match v, ht with
    | .pref xid, _ =>
        by_cases hx : xid = id
        · simp [hx, reject_pending_none ctx id _ h]
        · simp only [hx, if_false]
          have hget : (getP (setRejectionHandled ctx xid) id).state = .pending := by
            rw [getP_setRejectionHandled_ne ctx xid id (fun hc => hx hc.symm)]
            exact h
          split
          · simp [followPromise, hget]
          · exact fulfill_pending_none _ id _ hget
          · exact reject_pending_none _ id _ hget
    | .boolV b, _ => exact fulfill_pending_none ctx id _ h
    | .numV n, _ => exact fulfill_pending_none ctx id _ h
    | .strV s, _ => exact fulfill_pending_none ctx id _ h
    | .errV n m, _ => exact fulfill_pending_none ctx id _ h
    | .unhandledRejection r, _ => exact fulfill_pending_none ctx id _ h
    | .arrV vs, _ => exact fulfill_pending_none ctx id _ h
  · simp only [ht, Bool.not_false, if_true]
    exact fulfill_pending_none ctx id _ h

/-- `_reject` on a pending promise leaves it rejected with the reason. -/
theorem getP_reject_state (ctx : PCtx) (id : Nat) (r : Val)
    (h : (getP ctx id).state = .pending) :
    (getP (reject ctx id r).1 id).state = .rejected r := by
  simp only [reject]
  rw [h]
  simp only [flushHandlers, getP, setP, Sched.enqueueIdle]
  split <;> simp [Function.update]

/-- `_fulfill` on a pending promise leaves it fulfilled with the value. -/
theorem getP_fulfill_state (ctx : PCtx) (id : Nat) (v : Val)
    (h : (getP ctx id).state = .pending) :
    (getP (fulfill ctx id v).1 id).state = .fulfilled v := by
  simp only [fulfill]
  rw [h]
  simp [flushHandlers, getP, setP]

/-! ## C4 — self-resolution rejects with a TypeError -/

/-- C4: resolving a pending promise with itself neither hangs in
`Pending` nor fulfills: `_resolve(p, p)` transitions `p` to `Rejected`
with the `TypeError` "cannot resolve Promise to self" (and the resolve
call itself returns normally rather than throwing). -/
theorem c4_self_resolution_rejects (ctx : PCtx) (id : Nat)
    (h : (getP ctx id).state = .pending) :
    (getP (resolve ctx id (.pref id)).1 id).state = .rejected typeErrorSelf
    ∧ (resolve ctx id (.pref id)).2 = none := by
  constructor
  · unfold resolve
    rw [h]
    simp only [Val.truthy, Bool.not_true, Bool.false_eq_true, if_false, if_pos rfl]
    exact getP_reject_state ctx id typeErrorSelf h
  · exact resolve_pending_none ctx id _ h

/-- C4, witness: the claim applied to a one-promise heap whose promise 0
is pending. -/
theorem c4_witness :
    (getP pctx0 0).state = .pending
    ∧ (getP (resolve pctx0 0 (.pref 0)).1 0).state = .rejected typeErrorSelf
    ∧ (resolve pctx0 0 (.pref 0)).2 = none :=
  ⟨rfl, (c4_self_resolution_rejects pctx0 0 rfl).1, (c4_self_resolution_rejects pctx0 0 rfl).2⟩

/-! ## C1 — settlement is single-assignment, first-write-wins -/

/-- After the first call, a deferred's `resolve`/`reject` functions are
complete no-ops: the shared `called` flag short-circuits them. -/
theorem deferredCall_called (ctx : PCtx) (d : DeferredM) (hd : d.called = true) (c : RCall) :
    deferredCall ctx d c = (ctx, d, none) := by
  simp [deferredCall, hd]

/-- A whole sequence of calls on an already-used deferred is a no-op. -/
theorem runCalls_called (ctx : PCtx) (d : DeferredM) (hd : d.called = true)
    (cs : List RCall) :
    runCalls ctx d cs = (ctx, d, none) := by
  induction cs with
  | nil => rfl
  | cons c cs ih => simp [runCalls, deferredCall_called ctx d hd c, ih]

/-- Running a call sequence on a fresh deferred applies exactly the first
call; the rest are swallowed by the `called` flag. -/
theorem runCalls_first (ctx : PCtx) (d : DeferredM) (hd : d.called = false)
    (hp : (getP ctx d.pid).state = .pending) (c : RCall) (cs : List RCall) :
    runCalls ctx d (c :: cs)
      = ((match c with
          | .res v => (resolve ctx d.pid v).1
          | .rej e => (reject ctx d.pid e).1), { d with called := true }, none) := by
  cases c with
  | res v =>
      simp only [runCalls, deferredCall, hd, Bool.false_eq_true, if_false]
      rw [resolve_pending_none ctx d.pid v hp]
      exact runCalls_called _ _ rfl cs
  | rej e =>
      simp only [runCalls, deferredCall, hd, Bool.false_eq_true, if_false]
      rw [reject_pending_none ctx d.pid e hp]
      exact runCalls_called _ _ rfl cs

/-- C1: settlement is single-assignment with first-write-wins. Running
the constructor (or `defer()`, which exposes the same capture functions)
with a resolver that makes a first `resolve`/`reject` call, then any
further calls, and finally throws, produces *exactly* the state produced
by the first call alone: the later calls never touch the promise (state
and result never change, so `value()`/`reason()` keep answering the
same), and a synchronous resolver throw after the first call is ignored
rather than re-rejecting. Moreover any single call on a deferred whose
`called` flag is set is a complete no-op. -/
theorem c1_first_write_wins (ctx : PCtx) (c : RCall) (cs : List RCall) (out : Option Val) :
    constructorRun ctx ⟨c :: cs, out⟩ = constructorRun ctx ⟨[c], none⟩
    ∧ ∀ (ctx2 : PCtx) (d : DeferredM), d.called = true →
        ∀ c2, deferredCall ctx2 d c2 = (ctx2, d, none) := by
  constructor
  · have hp : (getP (newPromise ctx).1 ((⟨(newPromise ctx).2, false⟩ : DeferredM)).pid).state
        = .pending := by
      show (getP (newPromise ctx).1 (newPromise ctx).2).state = .pending
      rw [getP_newPromise]
      rfl
    simp only [constructorRun, deferNew]
    rw [runCalls_first (newPromise ctx).1 ⟨(newPromise ctx).2, false⟩ rfl hp c cs]
    rw [runCalls_first (newPromise ctx).1 ⟨(newPromise ctx).2, false⟩ rfl hp c []]
    cases out <;> simp [catchReject]
  · intro ctx2 d hd c2
    exact deferredCall_called ctx2 d hd c2

/-- C1, witness: on a discarded deferred (`called` already set) a further
`resolve` call changes nothing; and a two-call script with a trailing
throw equals the one-call script. -/
theorem c1_witness :
    (⟨0, true⟩ : DeferredM).called = true
    ∧ constructorRun pctx0 ⟨[.res (.numV 1), .rej (.strV "late")], some (.strV "thrown")⟩
        = constructorRun pctx0 ⟨[.res (.numV 1)], none⟩
    ∧ deferredCall pctx0 ⟨0, true⟩ (.res (.numV 2)) = (pctx0, ⟨0, true⟩, none) :=
  ⟨rfl,
   (c1_first_write_wins pctx0 (.res (.numV 1)) [.rej (.strV "late")] (some (.strV "thrown"))).1,
   (c1_first_write_wins pctx0 (.res (.numV 1)) [] none).2 pctx0 ⟨0, true⟩ rfl (.res (.numV 2))⟩

/-! ## C10 — all/race on a non-array argument reject, not throw -/

/-- C10: for a non-array argument, `Promise.all(x)` and `Promise.race(x)`
do not throw synchronously. Their resolvers fail the internal
`assert(Array.isArray(thenables), "thenables must be an Array")` before
calling either capture function, and the constructor's catch clause turns
exactly such a resolver throw into a rejection of the returned promise
(first conjunct, on the constructor model); hence both combinators return
a promise rejected with the assertion `Error` (second and third
conjuncts). -/
theorem c10_nonarray_rejects (ctx : PCtx) :
    (getP (constructorRun ctx ⟨[], some allAssertError⟩).1
        (constructorRun ctx ⟨[], some allAssertError⟩).2).state = .rejected allAssertError
    ∧ (allRun .nonArray).pstate = .rejected allAssertError
    ∧ (raceRun .nonArray).pstate = .rejected allAssertError := by
  refine ⟨?_, rfl, rfl⟩
  simp only [constructorRun, deferNew, runCalls, catchReject, Bool.not_false, if_true]
  exact getP_reject_state _ _ _ (by rw [getP_newPromise]; rfl)

/-! ## C6 — Promise.all: empty input and first-reported rejection -/

/-- Once the constructor's `called` flag is set, later settlement reports
still mutate the bookkeeping but can never change the promise: both
capture functions are one-shot. -/
theorem allStep_called (s : AllSt) (hs : s.called = true) (e : SettleEv) :
    (allStep s e).called = true ∧ (allStep s e).pstate = s.pstate := by
  cases e with
  | fulfilledAt i v =>
      simp only [allStep]
      split <;> simp [allResolveArr, hs]
  | rejectedAt i r => simp [allStep, allReject, hs]

/-- Folding any further reports over a settled `Promise.all` state leaves
its promise state unchanged. -/
theorem allFold_called (evs : List SettleEv) (s : AllSt) (hs : s.called = true) :
    (evs.foldl allStep s).pstate = s.pstate ∧ (evs.foldl allStep s).called = true := by
  induction evs generalizing s with
  | nil => exact ⟨rfl, hs⟩
  | cons e evs ih =>
      have h1 := allStep_called s hs e
      have h2 := ih (allStep s e) h1.1
      simp only [List.foldl_cons]
      exact ⟨h2.1.trans h1.2, h2.2⟩

/-- Folding fewer fulfillment reports than `remaining` never calls
`resolve`: the count stays positive, so the promise stays pending and the
`called` flag stays clear. -/
theorem allFold_fulfills (pre : List SettleEv) (s : AllSt)
    (hpre : ∀ e ∈ pre, ∃ j v, e = SettleEv.fulfilledAt j v)
    (hc : s.called = false) (hlt : pre.length < s.remaining) :
    (pre.foldl allStep s).called = false
    ∧ (pre.foldl allStep s).pstate = s.pstate
    ∧ (pre.foldl allStep s).remaining = s.remaining - pre.length := by
  induction pre generalizing s with
  | nil => exact ⟨hc, rfl, rfl⟩
  | cons e pre ih =>
      obtain ⟨j, v, rfl⟩ := hpre e (by simp)
      have hlen : pre.length + 1 < s.remaining := by simpa using hlt
      have hrem : ¬ (s.remaining - 1 = 0) := by omega
      simp only [List.foldl_cons, allStep]
      rw [if_neg hrem]
      have hpre' : ∀ e ∈ pre, ∃ j v, e = SettleEv.fulfilledAt j v :=
        fun e he => hpre e (by simp [he])
      have := ih { s with result := s.result.set j (some v), remaining := s.remaining - 1 }
        hpre' hc (by simp; omega)
      refine ⟨this.1, this.2.1, ?_⟩
      rw [this.2.2]
      simp
      omega

/-- C6: `Promise.all([])` fulfills immediately with the empty array; and
for every input of `n` elements, each subscribed exactly once (so the
settlement reports carry pairwise distinct indices below `n`), if some
element rejects then the returned promise rejects with the reason of the
first-reported rejection, no matter how the remaining elements settle
afterwards. -/
theorem c6_all_empty_and_first_rejection :
    (allRun (.array 0)).pstate = .fulfilled (.arrV [])
    ∧ ∀ (n : Nat) (pre post : List SettleEv) (i : Nat) (r : Val),
        (∀ e ∈ pre, ∃ j v, e = SettleEv.fulfilledAt j v) →
        ((pre ++ SettleEv.rejectedAt i r :: post).map SettleEv.index).Nodup →
        (∀ e ∈ pre ++ SettleEv.rejectedAt i r :: post, e.index < n) →
        (allFold n (pre ++ SettleEv.rejectedAt i r :: post)).pstate = .rejected r := by
  constructor
  · rfl
  · intro n pre post i r hpre hnodup hbound
    have hn0 : n ≠ 0 := by
      have := hbound (SettleEv.rejectedAt i r) (by simp)
      omega
    have hsub : ((pre.map SettleEv.index) ++ [i]).Sublist
        ((pre ++ SettleEv.rejectedAt i r :: post).map SettleEv.index) := by
      rw [List.map_append, List.map_cons]
      exact List.Sublist.append_left
        (List.cons_sublist_cons.mpr (List.nil_sublist _)) _
    have hnd : ((pre.map SettleEv.index) ++ [i]).Nodup := hnodup.sublist hsub
    have hmem : ∀ x ∈ (pre.map SettleEv.index) ++ [i], x < n := by
      intro x hx
      rcases List.mem_append.mp hx with hx | hx
      · rcases List.mem_map.mp hx with ⟨e, he, rfl⟩
        exact hbound e (by simp [he])
      · simp at hx
        subst hx
        exact hbound (SettleEv.rejectedAt x r) (by simp)
    have hcard : ((pre.map SettleEv.index) ++ [i]).length ≤ n := by
      have h1 : ((pre.map SettleEv.index) ++ [i]).toFinset.card
          = ((pre.map SettleEv.index) ++ [i]).length :=
        List.toFinset_card_of_nodup hnd
      have h2 : ((pre.map SettleEv.index) ++ [i]).toFinset ⊆ Finset.range n := by
        intro x hx
        rw [List.mem_toFinset] at hx
        exact Finset.mem_range.mpr (hmem x hx)
      have h3 := Finset.card_le_card h2
      rw [Finset.card_range] at h3
      omega
    have hlen : pre.length + 1 ≤ n := by
      simpa using hcard
    rw [allFold, allRun]
    rw [if_neg hn0]
    rw [List.foldl_append]
    have hs1 := allFold_fulfills pre ⟨List.replicate n none, n, false, .pending⟩ hpre rfl
      (by simpa using hlen)
    rw [List.foldl_cons]
    have hstep : (allStep (pre.foldl allStep ⟨List.replicate n none, n, false, .pending⟩)
        (SettleEv.rejectedAt i r)).pstate = .rejected r
        ∧ (allStep (pre.foldl allStep ⟨List.replicate n none, n, false, .pending⟩)
        (SettleEv.rejectedAt i r)).called = true := by
      simp [allStep, allReject, hs1.1]
    have hpost := allFold_called post _ hstep.2
    rw [hpost.1, hstep.1]

/-- C6, witness: two inputs; element 0 rejects first, element 1 fulfills
afterwards; the result is rejected with element 0's reason. -/
theorem c6_witness :
    (∀ e ∈ ([] : List SettleEv), ∃ j v, e = SettleEv.fulfilledAt j v)
    ∧ (([] ++ SettleEv.rejectedAt 0 (.strV "E")
          :: [SettleEv.fulfilledAt 1 (.numV 7)]).map SettleEv.index).Nodup
    ∧ (allFold 2 ([] ++ SettleEv.rejectedAt 0 (.strV "E")
          :: [SettleEv.fulfilledAt 1 (.numV 7)])).pstate = .rejected (.strV "E") :=
  ⟨by simp, by decide,
   c6_all_empty_and_first_rejection.2 2 [] [SettleEv.fulfilledAt 1 (.numV 7)] 0 (.strV "E")
     (by simp) (by decide) (by decide)⟩

/-! ## C9 — attaching a handler transfers rejection responsibility -/

/-- `_setRejectionHandled` rewrites the target record with the
`RejectionHandled` flag set, leaving the other fields alone. -/
theorem getP_setRejectionHandled_self (ctx : PCtx) (id : Nat) :
    getP (setRejectionHandled ctx id) id = { getP ctx id with handled := true } := by
  simp only [setRejectionHandled]
  split <;> simp

/-- The idle-queue checker is a no-op on a promise whose rejection is
already marked handled: no flag change, no notification enqueued. -/
theorem doCheck_handled (ctx : PCtx) (id : Nat) (h : (getP ctx id).handled = true) :
    doCheckUnhandledRejection ctx id = ctx := by
  simp [doCheckUnhandledRejection, h]

/-- `_enqueue` always ends by marking the rejection handled, whatever the
callbacks are. -/
theorem getP_enqueueHandler_handled (ctx : PCtx) (id : Nat) (onF onR : Option Nat)
    (slave : Option Nat) (doneT : Bool) :
    (getP (enqueueHandler ctx id onF onR slave doneT) id).handled = true := by
  simp only [enqueueHandler]
  split <;> simp [getP_setRejectionHandled_self]

/-- When the promise was notified-but-unhandled, `_enqueue` puts the
rejection-handled notification at the back of the main queue (after the
unwrap task it may itself have enqueued). -/
theorem mainQ_enqueueHandler_getLast (ctx : PCtx) (id : Nat) (onF onR : Option Nat)
    (slave : Option Nat) (doneT : Bool)
    (h1 : (getP ctx id).handled = false) (h2 : (getP ctx id).notified = true) :
    (enqueueHandler ctx id onF onR slave doneT).mainQ.getLast?
      = some (.notifyHandled id) := by
  simp only [enqueueHandler]
  simp only [getP] at h1 h2
  split
  · simp [setRejectionHandled, Sched.enqueue, setP, getP, Function.update,
      h1, h2, List.getLast?_append]
  · simp [setRejectionHandled, Sched.enqueue, setP, getP, Function.update,
      h1, h2, List.getLast?_append]

/-- C9: every `p.then()` / `p.done()` call that actually enqueues a
handler (is not short-circuited) sets `p`'s `RejectionHandled` flag, even
when no rejection callback is supplied; consequently the
possibly-unhandled checker finds the rejection handled afterwards and
never notifies for `p`; and if `p` had already been notified as possibly
unhandled (and not yet handled), the attachment enqueues the
rejection-handled notification as the last main-queue entry. -/
theorem c9_attachment_transfers_responsibility (ctx : PCtx) (id : Nat)
    (onF onR : Option Nat)
    (hid : id < ctx.st.heap.next)
    (hsc : thenShortCircuits (getP ctx id) onF onR = false) :
    (getP (promiseThen ctx id onF onR).1 id).handled = true
    ∧ doCheckUnhandledRejection (promiseThen ctx id onF onR).1 id
        = (promiseThen ctx id onF onR).1
    ∧ ((getP ctx id).handled = false → (getP ctx id).notified = true →
        ((promiseThen ctx id onF onR).1).mainQ.getLast? = some (.notifyHandled id))
    ∧ (doneShortCircuits (getP ctx id) onF = false →
        (getP (promiseDone ctx id onF onR) id).handled = true
        ∧ doCheckUnhandledRejection (promiseDone ctx id onF onR) id
            = promiseDone ctx id onF onR
        ∧ ((getP ctx id).handled = false → (getP ctx id).notified = true →
            (promiseDone ctx id onF onR).mainQ.getLast? = some (.notifyHandled id))) := by
  have hne : id ≠ ctx.st.heap.next := by omega
  have hthen : promiseThen ctx id onF onR
      = (enqueueHandler (newPromise ctx).1 id onF onR (some (newPromise ctx).2) false,
         (newPromise ctx).2) := by
    simp [promiseThen, hsc]
  have hflags : getP (newPromise ctx).1 id = getP ctx id := getP_newPromise_ne ctx id hne
  refine ⟨?_, ?_, ?_, ?_⟩
  · rw [hthen]
    exact getP_enqueueHandler_handled _ id onF onR _ false
  · rw [hthen]
    exact doCheck_handled _ id (getP_enqueueHandler_handled _ id onF onR _ false)
  · intro h1 h2
    rw [hthen]
    exact mainQ_enqueueHandler_getLast (newPromise ctx).1 id onF onR _ false
      (by rw [hflags]; exact h1) (by rw [hflags]; exact h2)
  · intro hdsc
    have hdone : promiseDone ctx id onF onR = enqueueHandler ctx id onF onR none true := by
      simp [promiseDone, hdsc]
    refine ⟨?_, ?_, ?_⟩
    · rw [hdone]
      exact getP_enqueueHandler_handled ctx id onF onR none true
    · rw [hdone]
      exact doCheck_handled _ id (getP_enqueueHandler_handled ctx id onF onR none true)
    · intro h1 h2
      rw [hdone]
      exact mainQ_enqueueHandler_getLast ctx id onF onR none true h1 h2

/-- C9, witness: a rejected, notified-but-unhandled promise; attaching
`.then(undefined, cb)` (and `.done(undefined, cb)`) marks it handled,
silences the checker, and enqueues the rejection-handled notification. -/
theorem c9_witness :
    (0 < rejectedNotifiedCtx.st.heap.next
        ∧ thenShortCircuits (getP rejectedNotifiedCtx 0) none (some 5) = false
        ∧ doneShortCircuits (getP rejectedNotifiedCtx 0) none = false)
    ∧ (getP (promiseThen rejectedNotifiedCtx 0 none (some 5)).1 0).handled = true
    ∧ ((promiseThen rejectedNotifiedCtx 0 none (some 5)).1).mainQ.getLast?
        = some (.notifyHandled 0)
    ∧ (getP (promiseDone rejectedNotifiedCtx 0 none (some 5)) 0).handled = true
    ∧ (promiseDone rejectedNotifiedCtx 0 none (some 5)).mainQ.getLast?
        = some (.notifyHandled 0) :=
  ⟨⟨by decide, rfl, rfl⟩,
   (c9_attachment_transfers_responsibility rejectedNotifiedCtx 0 none (some 5)
      (by decide) rfl).1,
   (c9_attachment_transfers_responsibility rejectedNotifiedCtx 0 none (some 5)
      (by decide) rfl).2.2.1 rfl rfl,
   ((c9_attachment_transfers_responsibility rejectedNotifiedCtx 0 none (some 5)
      (by decide) rfl).2.2.2 rfl).1,
   ((c9_attachment_transfers_responsibility rejectedNotifiedCtx 0 none (some 5)
      (by decide) rfl).2.2.2 rfl).2.2 rfl rfl⟩

/-! ## C8 — the unwrappingPromise fence

Every heap/queue operation leaves the global fence and the
instrumentation log alone; only `setFence`/`logEv` touch them. -/

@[simp] theorem st_enqueue (s : Sched γ τ) (t : τ) : (Sched.enqueue s t).st = s.st := rfl

@[simp] theorem st_enqueueIdle (s : Sched γ τ) (t : τ) : (Sched.enqueueIdle s t).st = s.st := rfl

@[simp] theorem fence_setP (ctx : PCtx) (id : Nat) (r : PromiseRec) :
    (setP ctx id r).st.fence = ctx.st.fence := rfl

@[simp] theorem events_setP (ctx : PCtx) (id : Nat) (r : PromiseRec) :
    (setP ctx id r).st.events = ctx.st.events := rfl

@[simp] theorem fence_flushHandlers (ctx : PCtx) (id : Nat) :
    (flushHandlers ctx id).st.fence = ctx.st.fence := rfl

@[simp] theorem events_flushHandlers (ctx : PCtx) (id : Nat) :
    (flushHandlers ctx id).st.events = ctx.st.events := rfl

@[simp] theorem fence_setRejectionHandled (ctx : PCtx) (id : Nat) :
    (setRejectionHandled ctx id).st.fence = ctx.st.fence := by
  simp only [setRejectionHandled]
  split <;> rfl

@[simp] theorem events_setRejectionHandled (ctx : PCtx) (id : Nat) :
    (setRejectionHandled ctx id).st.events = ctx.st.events := by
  simp only [setRejectionHandled]
  split <;> rfl

@[simp] theorem fence_fulfill (ctx : PCtx) (id : Nat) (v : Val) :
    (fulfill ctx id v).1.st.fence = ctx.st.fence := by
  simp only [fulfill]
  split <;> rfl

@[simp] theorem events_fulfill (ctx : PCtx) (id : Nat) (v : Val) :
    (fulfill ctx id v).1.st.events = ctx.st.events := by
  simp only [fulfill]
  split <;> rfl

@[simp] theorem fence_reject (ctx : PCtx) (id : Nat) (r : Val) :
    (reject ctx id r).1.st.fence = ctx.st.fence := by
  simp only [reject]
  split
  · split <;> rfl
  · rfl

@[simp] theorem events_reject (ctx : PCtx) (id : Nat) (r : Val) :
    (reject ctx id r).1.st.events = ctx.st.events := by
  simp only [reject]
  split
  · split <;> rfl
  · rfl

@[simp] theorem fence_enqueueHandler (ctx : PCtx) (id : Nat) (onF onR : Option Nat)
    (slave : Option Nat) (doneT : Bool) :
    (enqueueHandler ctx id onF onR slave doneT).st.fence = ctx.st.fence := by
  simp only [enqueueHandler]
  split <;> simp

@[simp] theorem events_enqueueHandler (ctx : PCtx) (id : Nat) (onF onR : Option Nat)
    (slave : Option Nat) (doneT : Bool) :
    (enqueueHandler ctx id onF onR slave doneT).st.events = ctx.st.events := by
  simp only [enqueueHandler]
  split <;> simp

@[simp] theorem fence_followPromise (ctx : PCtx) (id xid : Nat) :
    (followPromise ctx id xid).1.st.fence = ctx.st.fence := by
  simp only [followPromise]
  split <;> simp

@[simp] theorem events_followPromise (ctx : PCtx) (id xid : Nat) :
    (followPromise ctx id xid).1.st.events = ctx.st.events := by
  simp only [followPromise]
  split <;> simp

@[simp] theorem fence_resolve (ctx : PCtx) (id : Nat) (v : Val) :
    (resolve ctx id v).1.st.fence = ctx.st.fence := by
  simp only [resolve]
  split
  · split
    · simp
    · split
      · split
        · simp
        · split <;> simp
      · simp
  · rfl

@[simp] theorem events_resolve (ctx : PCtx) (id : Nat) (v : Val) :
    (resolve ctx id v).1.st.events = ctx.st.events := by
  simp only [resolve]
  split
  · split
    · simp
    · split
      · split
        · simp
        · split <;> simp
      · simp
  · rfl

@[simp] theorem fence_newPromise (ctx : PCtx) :
    (newPromise ctx).1.st.fence = ctx.st.fence := rfl

@[simp] theorem events_newPromise (ctx : PCtx) :
    (newPromise ctx).1.st.events = ctx.st.events := rfl

@[simp] theorem fence_promiseResolveStatic (ctx : PCtx) (v : Val) :
    (promiseResolveStatic ctx v).1.st.fence = ctx.st.fence := by
  simp [promiseResolveStatic]

@[simp] theorem events_promiseResolveStatic (ctx : PCtx) (v : Val) :
    (promiseResolveStatic ctx v).1.st.events = ctx.st.events := by
  simp [promiseResolveStatic]

@[simp] theorem fence_toPromise (ctx : PCtx) (v : Val) :
    (toPromise ctx v).1.st.fence = ctx.st.fence := by
  unfold toPromise
  split <;> simp

@[simp] theorem events_toPromise (ctx : PCtx) (v : Val) :
    (toPromise ctx v).1.st.events = ctx.st.events := by
  unfold toPromise
  split <;> simp

@[simp] theorem fence_promiseDone (ctx : PCtx) (id : Nat) (onF onR : Option Nat) :
    (promiseDone ctx id onF onR).st.fence = ctx.st.fence := by
  unfold promiseDone
  split <;> simp

@[simp] theorem events_promiseDone (ctx : PCtx) (id : Nat) (onF onR : Option Nat) :
    (promiseDone ctx id onF onR).st.events = ctx.st.events := by
  unfold promiseDone
  split <;> simp

@[simp] theorem fence_setFence (ctx : PCtx) (f : Option Nat) :
    (setFence ctx f).st.fence = f := rfl

@[simp] theorem events_setFence (ctx : PCtx) (f : Option Nat) :
    (setFence ctx f).st.events = ctx.st.events := rfl

@[simp] theorem fence_logEv (ctx : PCtx) (e : PEv) :
    (logEv ctx e).st.fence = ctx.st.fence := rfl

@[simp] theorem events_logEv (ctx : PCtx) (e : PEv) :
    (logEv ctx e).st.events = ctx.st.events ++ [e] := rfl

/-- C8: the `unwrappingPromise` fence discipline of `_unwrap`. Starting
from a free fence (the asserted precondition: the pointer is undefined
before any handler callback is invoked), executing any handler — whose
slave, if it has one, is still pending, as the resolution algorithm
guarantees — leaves the fence free again on *every* exit path, normal or
throwing; and every user callback invocation recorded during the task ran
with the fence set to some promise (the handler's own promise for
`.done()`, the slave for `.then()`). -/
theorem c8_unwrap_fence_discipline (rcb : Nat → Val → Except Val Val) (ctx : PCtx)
    (h : HandlerRec)
    (hf : ctx.st.fence = none)
    (hs : ∀ sid, h.slave = some sid → (getP ctx sid).state = .pending) :
    (unwrapTask rcb ctx h).1.st.fence = none
    ∧ ∀ ev ∈ (unwrapTask rcb ctx h).1.st.events.drop ctx.st.events.length,
        ∃ pid, ev = PEv.cbInvoked (some pid) := by
  simp only [unwrapTask]
  split
  · -- .done() handler
    split
    · -- no applicable callback: rejection throws, fulfillment is silent
      split
      · exact ⟨hf, by simp⟩
      · exact ⟨hf, by simp⟩
    · -- callback present: fence acquired, then released on both paths
      rw [hf]
      simp only [Option.isSome_none, Bool.false_eq_true, if_false]
      split
      · -- callback returned a value
        constructor
        · split <;> simp
        · split <;> simp [setFence, logEv]
      · -- callback threw: fence cleared before the handler throws
        exact ⟨by simp, by simp [setFence, logEv]⟩
  · -- .then() handler or follower
    split
    · -- handler.slave is absent (not reachable from the source paths)
      exact ⟨hf, by simp⟩
    · -- handler.slave = some sid
      rename_i sid hsl
      split
      · -- callback present: acquire fence, try/catch, release
        rw [hf]
        simp only [Option.isSome_none, Bool.false_eq_true, if_false]
        have hpend : ∀ c2 : PCtx, c2.st.heap = ctx.st.heap →
            (getP c2 sid).state = PState.pending := by
          intro c2 hc2
          show (c2.st.heap.recs sid).state = PState.pending
          rw [hc2]
          exact hs sid hsl
        split
        · -- try/catch combination returned normally; fence is released
          rename_i c hres
          refine ⟨rfl, ?_⟩
          cases hr : rcb _ (match (getP ctx h.promise).state with
              | PState.fulfilled v => v
              | PState.rejected v => v
              | PState.pending => Val.undef) with
          | ok v =>
              rw [hr] at hres
              simp only at hres
              have hnone := resolve_pending_none
                (logEv (setFence ctx (some sid))
                  (PEv.cbInvoked (setFence ctx (some sid)).st.fence)) sid v (hpend _ rfl)
              rcases h2 : resolve (logEv (setFence ctx (some sid))
                  (PEv.cbInvoked (setFence ctx (some sid)).st.fence)) sid v with ⟨c1, oe⟩
              rw [h2] at hres hnone
              simp only at hnone
              subst hnone
              simp only at hres
              injection hres with hc ho
              have hev := events_resolve
                (logEv (setFence ctx (some sid))
                  (PEv.cbInvoked (setFence ctx (some sid)).st.fence)) sid v
              rw [h2, hc] at hev
              simp only at hev
              simp [hev]
          | error e =>
              rw [hr] at hres
              simp only at hres
              have hev := events_reject
                (logEv (setFence ctx (some sid))
                  (PEv.cbInvoked (setFence ctx (some sid)).st.fence)) sid e
              rw [hres] at hev
              simp only at hev
              simp [hev]
        · -- an exception cannot escape the try/catch: the slave is pending
          rename_i c e2 hres
          exfalso
          cases hr : rcb _ (match (getP ctx h.promise).state with
              | PState.fulfilled v => v
              | PState.rejected v => v
              | PState.pending => Val.undef) with
          | ok v =>
              rw [hr] at hres
              simp only at hres
              have hnone := resolve_pending_none
                (logEv (setFence ctx (some sid))
                  (PEv.cbInvoked (setFence ctx (some sid)).st.fence)) sid v (hpend _ rfl)
              rcases h2 : resolve (logEv (setFence ctx (some sid))
                  (PEv.cbInvoked (setFence ctx (some sid)).st.fence)) sid v with ⟨c1, oe⟩
              rw [h2] at hres hnone
              simp only at hnone
              subst hnone
              simp only at hres
              injection hres with hc ho
              exact Option.noConfusion ho
          | error e =>
              rw [hr] at hres
              simp only at hres
              have hnone := reject_pending_none
                (logEv (setFence ctx (some sid))
                  (PEv.cbInvoked (setFence ctx (some sid)).st.fence)) sid e (hpend _ rfl)
              rw [hres] at hnone
              simp at hnone
      · -- no callback: pass the result through to the slave
        split
        · exact ⟨by simp [hf], by simp⟩
        · exact ⟨by simp [hf], by simp⟩
/-- C8, witness: a `.then()` handler with both callbacks on a fresh heap
whose callback throws; the fence starts free, the handler's slave is
pending, and after the task the fence is free again while the one
recorded callback invocation ran under an occupied fence. -/
theorem c8_witness :
    pctx0.st.fence = none
    ∧ ((unwrapTask (fun _ _ => .error (.strV "boom")) pctx0
          ⟨0, some 7, some 8, some 1, false⟩).1.st.fence = none
        ∧ ∀ ev ∈ (unwrapTask (fun _ _ => .error (.strV "boom")) pctx0
              ⟨0, some 7, some 8, some 1, false⟩).1.st.events.drop
              pctx0.st.events.length,
            ∃ pid, ev = PEv.cbInvoked (some pid)) :=
  ⟨rfl, c8_unwrap_fence_discipline (fun _ _ => .error (.strV "boom")) pctx0
      ⟨0, some 7, some 8, some 1, false⟩ rfl (fun _ _ => rfl)⟩

/-! ## C5 — Promise.reject(E).done() makes flush() throw -/

/-- C5: after `Promise.reject(E).done()` with no callbacks, `flush()`
under the default unhandled-rejection handler throws: the error escapes
the flush call itself (it is the flush result's exception component, with
the remaining queues kept for the automatically re-scheduled pass), it is
the `UnhandledRejection` error the default handler throws, and its
`reason` property is exactly `E` — for every reason `E` and every
callback behaviour `rcb` (no user callbacks are involved). -/
theorem c5_done_unhandled_escapes (e : Val) (rcb : Nat → Val → Except Val Val) :
    (asyncFlush (runPTask rcb) 2 2 (rejectDoneCtx e)).2.1 = some (.unhandledRejection e)
    ∧ (Val.unhandledRejection e).reasonOf = some e := by
  refine ⟨?_, rfl⟩
  rw [show (2 : Nat) = 1 + 1 from rfl]
  simp [asyncFlush, drainMain, rejectDoneCtx, promiseRejectStatic, newPromise, pctx0,
    reject, getP, setP, flushHandlers, promiseDone, doneShortCircuits, enqueueHandler,
    setRejectionHandled, Sched.enqueue, Sched.enqueueIdle, runPTask, unwrapTask,
    freshRec, Function.update, setFence, logEv]

end TsPromise
